import Mathlib

/- Shallow embedding of the `tme` timestamp command-line utility
(src/main.rs), together with the chrono and standard-library functions it
calls. Machine integers are modelled as `Int` with explicit range checks
where the code performs them; fallible operations return `Option`; the
printing loop is modelled as the list of records written to stdout plus an
optional panic message. -/

namespace Tme

/-- Rust `char::is_whitespace`: the Unicode White_Space code points
(U+0009..U+000D, U+0020, U+0085, U+00A0, U+1680, U+2000..U+200A, U+2028,
U+2029, U+202F, U+205F, U+3000). -/
def rustIsWhitespace (c : Char) : Bool :=
  let n := c.toNat
  (9 ≤ n && n ≤ 13) || n == 32 || n == 133 || n == 160 || n == 5760 ||
  (8192 ≤ n && n ≤ 8202) || n == 8232 || n == 8233 || n == 8239 || n == 8287 ||
  n == 12288

/-- Drop the leading whitespace characters of a character list. -/
def trimLeftChars : List Char → List Char
  | [] => []
  | c :: r => if rustIsWhitespace c then trimLeftChars r else c :: r

/-- Rust `str::trim`: remove leading and trailing whitespace. -/
def rustTrim (s : String) : String :=
  String.mk (trimLeftChars (trimLeftChars s.data.reverse).reverse)

/-- ASCII decimal digit test, as used by `i64::from_str` with radix 10. -/
def isAsciiDigit (c : Char) : Bool := 48 ≤ c.toNat && c.toNat ≤ 57

/-- One accumulation step of decimal digit parsing; a non-digit character
poisons the result. -/
def stepDigit (acc : Option Nat) (c : Char) : Option Nat :=
  match acc with
  | none => none
  | some n => if isAsciiDigit c then some (n * 10 + (c.toNat - 48)) else none

/-- Sign handling of `i64::from_str`: a leading `+` or `-` is stripped
and remembered; the first component is true for a negative number. -/
def splitSign (l : List Char) : Bool × List Char :=
  match l with
  | [] => (false, [])
  | c :: r => if c = '+' then (false, r) else if c = '-' then (true, r) else (false, l)

/-- Signed value of a digit accumulation. -/
def signedVal (neg : Bool) (n : Nat) : Int :=
  if neg then -(n : Int) else (n : Int)

/-- Final range check of `i64::from_str` against the i64 bounds. -/
def mkParsed (neg : Bool) (n : Nat) : Option Int :=
  if -9223372036854775808 ≤ signedVal neg n ∧ signedVal neg n ≤ 9223372036854775807 then
    some (signedVal neg n)
  else none

/-- Rust `str::parse::<i64>` (`i64::from_str`): an optional `+`/`-` sign
followed by one or more ASCII digits; any other character (including
whitespace) or a value outside the i64 range yields an error. -/
def parse_i64 (s : String) : Option Int :=
  if (splitSign s.data).2.isEmpty then none
  else
    match (splitSign s.data).2.foldl stepDigit (some 0) with
    | none => none
    | some n => mkParsed (splitSign s.data).1 n

/-- The `Format` enum of main.rs (unit of the input timestamps). -/
inductive Format where
  | seconds
  | milliseconds
  | microseconds
  | nanoseconds
deriving DecidableEq, Repr

/-- `Format::symbol` (the microseconds string reproduces the bytes of the
source literal). -/
def Format.symbol : Format → String
  | .seconds => "s"
  | .milliseconds => "ms"
  | .microseconds => "Î¼s"
  | .nanoseconds => "ns"

/-- A chrono `DateTime<Utc>` instant: whole seconds since the Unix epoch
(rounded toward negative infinity) and the sub-second nanosecond count.
chrono keeps `0 ≤ nsecs < 2_000_000_000`; values of 1_000_000_000 and
above represent a leap second. -/
structure Instant where
  secs : Int
  nsecs : Int
deriving DecidableEq, Repr

/-- Days from 0001-01-01 (day 1) of the proleptic Gregorian calendar to
January 1 of year `y` (chrono `num_days_from_ce` of `y`-01-01). -/
def daysFromCEJan1 (y : Int) : Int :=
  365 * (y - 1) + (y - 1) / 4 - (y - 1) / 100 + (y - 1) / 400 + 1

/-- Year of chrono `NaiveDate::MIN`: `i32::MIN >> 13`. -/
def MIN_YEAR : Int := -262144

/-- Year of chrono `NaiveDate::MAX`: `i32::MAX >> 13`. -/
def MAX_YEAR : Int := 262143

/-- Day number of `NaiveDate::MIN` (January 1 of `MIN_YEAR`). -/
def MIN_DAYS : Int := daysFromCEJan1 MIN_YEAR

/-- Day number of `NaiveDate::MAX` (December 31 of `MAX_YEAR`, which is
not a leap year, hence 364 days past January 1). -/
def MAX_DAYS : Int := daysFromCEJan1 MAX_YEAR + 364

/-- Day number of 1970-01-01, chrono's `UNIX_EPOCH_DAY`. -/
def UNIX_EPOCH_DAY : Int := 719163

/-- chrono `DateTime::<Utc>::from_timestamp(secs, nsecs)`: succeeds iff
the day number `secs.div_euclid(86400) + UNIX_EPOCH_DAY` lies within the
representable date range and `nsecs` is a valid sub-second count. Rust's
`div_euclid`/`rem_euclid` are Lean's `/` and `%` on `Int`. -/
def from_timestamp (secs nsecs : Int) : Option Instant :=
  let days := secs / 86400 + UNIX_EPOCH_DAY
  if MIN_DAYS ≤ days ∧ days ≤ MAX_DAYS ∧ 0 ≤ nsecs ∧ nsecs < 2000000000 then
    some ⟨secs, nsecs⟩
  else none

/-- chrono `DateTime::<Utc>::from_timestamp_millis`. -/
def from_timestamp_millis (millis : Int) : Option Instant :=
  from_timestamp (millis / 1000) (millis % 1000 * 1000000)

/-- chrono `DateTime::<Utc>::from_timestamp_micros`. -/
def from_timestamp_micros (micros : Int) : Option Instant :=
  from_timestamp (micros / 1000000) (micros % 1000000 * 1000)

/-- chrono `DateTime::<Utc>::from_timestamp_nanos`: the same range check;
chrono documents (and expects internally) that it never fails for an i64
argument. -/
def from_timestamp_nanos (nanos : Int) : Option Instant :=
  from_timestamp (nanos / 1000000000) (nanos % 1000000000)

/-- chrono `DateTime::timestamp`: whole seconds since the epoch. -/
def Instant.timestamp (i : Instant) : Int := i.secs

/-- chrono `DateTime::timestamp_millis`: `timestamp * 1000` plus
`timestamp_subsec_millis` (the nanosecond count divided by 1_000_000). -/
def Instant.timestamp_millis (i : Instant) : Int :=
  i.secs * 1000 + i.nsecs / 1000000

/-- The `Times` struct of main.rs. -/
structure Times where
  «local» : Instant
  utc : Instant
  unix_s : Int
  unix_ms : Int
deriving DecidableEq, Repr

/-- `Times::new` (main.rs lines 69-78): `DateTime::<Local>::from(dt)`
preserves the instant, so the `local` field carries the same instant. -/
def Times.new (dt : Instant) : Times :=
  { «local» := dt
    utc := dt
    unix_s := dt.timestamp
    unix_ms := dt.timestamp_millis }

/-- The per-value decoding step of `main` (lines 106-114): one call of the
chrono constructor selected by the format. `none` corresponds to the
`.expect("input should be a valid time")` panic for the first three
formats, and to the (unreachable) internal panic of
`from_timestamp_nanos` for the fourth. -/
def decodeTs (f : Format) (ts : Int) : Option Instant :=
  match f with
  | .seconds => from_timestamp ts 0
  | .milliseconds => from_timestamp_millis ts
  | .microseconds => from_timestamp_micros ts
  | .nanoseconds => from_timestamp_nanos ts

/-- The output prefix `({ts} {sym})` printed for a batch value (line 116):
`ts` is the parsed i64 rendered in decimal by `Display`. -/
def tagOf (ts : Int) (f : Format) : String :=
  "(" ++ toString ts ++ " " ++ f.symbol ++ ")"

/-- One record printed to stdout: a batch-value report or the `now`
report (whose printed prefix is the literal `(now)`). -/
inductive Entry where
  | batch (tag : String) (times : Times)
  | now (times : Times)
deriving DecidableEq, Repr

/-- The token filter of `main` (`filter_map`, lines 92-104): a token whose
trimmed form is empty is dropped silently; otherwise the UNTRIMMED token
is parsed as i64, a failure being logged and the token dropped. -/
def parseToken (val : String) : Option Int :=
  if (rustTrim val).isEmpty then none
  else parse_i64 val

/-- The diagnostic logged by `log::error!` when a token fails to parse
(line 100), up to the appended debug rendering of the parse error. -/
def errMsg (val : String) : String :=
  "Could not convert \"" ++ val ++ "\" into i64"

/-- The diagnostics emitted by the token filter, in input order. -/
def tokenDiagnostics (tokens : List String) : List String :=
  tokens.filterMap fun val =>
    if (rustTrim val).isEmpty then none
    else
      match parse_i64 val with
      | some _ => none
      | none => some (errMsg val)

/-- The `for_each` loop of `main` (lines 105-121): prints one record per
decoded value, in order, and aborts with the `.expect` message when a
value is out of range for the format, leaving the remaining values
unprocessed. Returns the records printed before any abort, and the fatal
message if the run aborted. -/
def processValues (f : Format) : List Int → List Entry × Option String
  | [] => ([], none)
  | ts :: rest =>
    match decodeTs f ts with
    | none => ([], some "input should be a valid time")
    | some in_time =>
      (Entry.batch (tagOf ts f) (Times.new in_time) :: (processValues f rest).1,
       (processValues f rest).2)

/-- The Cli arguments that determine the output: the timestamp tokens
(after clap's splitting on `,`), the format, and the `now` flag. -/
structure Cli where
  timestamp : Option (List String)
  format : Format
  now : Bool

/-- The body of `main` after argument parsing (lines 89-128):
the records printed to stdout in order, and the panic message if the run
aborted. `nowInstant` stands for the value of `Utc::now()`. The process
exit status is 0 exactly when the second component is `none`; a fatal
abort in the batch loop also suppresses the `now` report. -/
def runMain (cli : Cli) (nowInstant : Instant) : List Entry × Option String :=
  match cli.timestamp with
  | none =>
    if cli.now then ([Entry.now (Times.new nowInstant)], none) else ([], none)
  | some timestamps =>
    match processValues cli.format (timestamps.filterMap parseToken) with
    | (es, some e) => (es, some e)
    | (es, none) =>
      if cli.now then (es ++ [Entry.now (Times.new nowInstant)], none)
      else (es, none)

/-- The records a token list yields when every decoded value is in range. -/
def entriesOf (f : Format) (tokens : List String) : List Entry :=
  (tokens.filterMap parseToken).filterMap fun v =>
    (decodeTs f v).map fun i => Entry.batch (tagOf v f) (Times.new i)

/-- The Unix epoch instant 1970-01-01T00:00:00Z. -/
def unixEpoch : Instant := ⟨0, 0⟩

/-- Spec-side description of the batch output: for the parsed values of
the tokens, in input order and up to (excluding) the first value that
fails to decode, one record per value whose prefix is built by `tagOf`
from that parsed value and the selected format. -/
def batchRecordsOf (f : Format) (tokens : List String) : List Entry :=
  ((tokens.filterMap parseToken).takeWhile fun v => (decodeTs f v).isSome).filterMap
    fun v => (decodeTs f v).map fun i => Entry.batch (tagOf v f) (Times.new i)

/-- Spec-side conversion of an input value `v` in unit `f` to milliseconds
(the round-trip scaling law of the spec): exact multiplication for
seconds, identity for milliseconds, and for microseconds and nanoseconds
division by the sub-millisecond factor rounding toward negative infinity
(the sub-millisecond remainder, normalised to `[0, factor)`, is dropped). -/
def specMillisOf (f : Format) (v : Int) : Int :=
  match f with
  | .seconds => v * 1000
  | .milliseconds => v
  | .microseconds => Int.fdiv v 1000
  | .nanoseconds => Int.fdiv v 1000000

/-- Folding the digit parser from a poisoned accumulator stays poisoned. -/
theorem foldl_stepDigit_none : ∀ l : List Char, l.foldl stepDigit none = none
  | [] => rfl
  | _ :: r => foldl_stepDigit_none r

/-- A non-digit character anywhere in the digit run poisons the parse. -/
theorem foldl_stepDigit_nondigit {c : Char} (hc : isAsciiDigit c = false) :
    ∀ (l : List Char), c ∈ l → ∀ acc, l.foldl stepDigit acc = none := by
  intro l
  induction l with
  | nil => intro h; cases h
  | cons d r ih =>
    intro hmem acc
    rcases List.mem_cons.mp hmem with h | h
    · subst h
      rcases acc with _ | n
      · exact foldl_stepDigit_none r
      · show List.foldl stepDigit (stepDigit (some n) c) r = none
        simp only [stepDigit, hc, if_false]
        exact foldl_stepDigit_none r
    · exact ih h _

/-- A whitespace character is not an ASCII digit. -/
theorem not_digit_of_whitespace {c : Char} (hw : rustIsWhitespace c = true) :
    isAsciiDigit c = false := by
  simp only [rustIsWhitespace, isAsciiDigit] at hw ⊢
  simp only [Bool.or_eq_true, Bool.and_eq_true, decide_eq_true_eq, beq_iff_eq] at hw
  simp only [Bool.and_eq_false_iff, decide_eq_false_iff_not, not_le]
  omega

/-- A character other than the sign characters survives sign stripping. -/
theorem mem_splitSign {c : Char} (hplus : c ≠ '+') (hminus : c ≠ '-') :
    ∀ l : List Char, c ∈ l → c ∈ (splitSign l).2 := by
  intro l hmem
  rcases l with _ | ⟨d, r⟩
  · cases hmem
  · by_cases hd1 : d = '+'
    · subst hd1
      simp only [splitSign, if_pos rfl]
      rcases List.mem_cons.mp hmem with h | h
      · exact absurd h hplus
      · exact h
    · by_cases hd2 : d = '-'
      · subst hd2
        have h1 : ('-' : Char) ≠ '+' := by decide
        simp only [splitSign, if_neg h1, if_pos rfl]
        rcases List.mem_cons.mp hmem with h | h
        · exact absurd h hminus
        · exact h
      · simp only [splitSign, if_neg hd1, if_neg hd2]
        exact hmem

/-- `i64::from_str` rejects any string that contains a whitespace
character: whitespace is neither a sign nor a digit. -/
theorem parse_i64_eq_none_of_whitespace {s : String} {c : Char}
    (hc : c ∈ s.data) (hw : rustIsWhitespace c = true) :
    parse_i64 s = none := by
  have hplus : c ≠ '+' := by rintro rfl; exact absurd hw (by decide)
  have hminus : c ≠ '-' := by rintro rfl; exact absurd hw (by decide)
  have hmem2 : c ∈ (splitSign s.data).2 := mem_splitSign hplus hminus s.data hc
  have hdig : isAsciiDigit c = false := not_digit_of_whitespace hw
  unfold parse_i64
  rcases hp : (splitSign s.data).2 with _ | ⟨d, r⟩
  · rw [hp] at hmem2; cases hmem2
  · rw [hp] at hmem2
    have hfold : (d :: r).foldl stepDigit (some 0) = none :=
      foldl_stepDigit_nondigit hdig _ hmem2 _
    simp [hp, hfold]

/-- A token whose trimmed form is empty is dropped by the token filter. -/
theorem parseToken_eq_none_of_trim_empty {val : String}
    (h : (rustTrim val).isEmpty = true) : parseToken val = none := by
  simp [parseToken, h]

/-- For a token whose trimmed form is nonempty, the token filter is the
raw (untrimmed) i64 parse. -/
theorem parseToken_eq_parse_of_trim_nonempty {val : String}
    (h : (rustTrim val).isEmpty = false) : parseToken val = parse_i64 val := by
  simp [parseToken, h]

/-- When every value decodes, the printing loop prints one record per
value, in order, and does not abort. -/
theorem processValues_all_some (f : Format) :
    ∀ vs : List Int, (∀ v ∈ vs, (decodeTs f v).isSome) →
      processValues f vs =
        (vs.filterMap fun v => (decodeTs f v).map fun i =>
          Entry.batch (tagOf v f) (Times.new i), none) := by
  intro vs
  induction vs with
  | nil => intro _; rfl
  | cons v rest ih =>
    intro h
    have hv := h v (List.mem_cons_self v rest)
    rcases hi : decodeTs f v with _ | i
    · rw [hi] at hv; simp at hv
    · have hrest := ih (fun w hw => h w (List.mem_cons_of_mem v hw))
      simp [processValues, hi, hrest, List.filterMap_cons]

/-- When a value fails to decode, the printing loop prints the records of
the preceding values and aborts there; the remaining values are never
processed. -/
theorem processValues_abort (f : Format) (v : Int) (vs2 : List Int)
    (hfail : decodeTs f v = none) :
    ∀ vs1 : List Int, (∀ w ∈ vs1, (decodeTs f w).isSome) →
      processValues f (vs1 ++ v :: vs2) =
        (vs1.filterMap fun w => (decodeTs f w).map fun i =>
          Entry.batch (tagOf w f) (Times.new i), some "input should be a valid time") := by
  intro vs1
  induction vs1 with
  | nil =>
    intro _
    simp [processValues, hfail]
  | cons w rest ih =>
    intro h
    have hw := h w (List.mem_cons_self w rest)
    rcases hi : decodeTs f w with _ | i
    · rw [hi] at hw; simp at hw
    · have hrest := ih (fun u hu => h u (List.mem_cons_of_mem w hu))
      simp [processValues, hi, hrest, List.filterMap_cons]

/-- The records printed by the batch loop are exactly those of the
values up to (excluding) the first decode failure, in input order, each
built by `tagOf` from its value and the selected format. -/
theorem processValues_eq_batchRecords (f : Format) :
    ∀ vs : List Int,
      (processValues f vs).1 =
        (vs.takeWhile fun v => (decodeTs f v).isSome).filterMap fun v =>
          (decodeTs f v).map fun i => Entry.batch (tagOf v f) (Times.new i) := by
  intro vs
  induction vs with
  | nil => rfl
  | cons v rest ih =>
    rcases hi : decodeTs f v with _ | i
    · simp [processValues, hi, List.takeWhile_cons]
    · simp [processValues, hi, List.takeWhile_cons, ih]

/-- Claim C1 (amended): decoding a value `v` under unit `u` and reading
the `unix_ms` field of the resulting `Times` yields `v` converted to
milliseconds; the sub-millisecond part of microsecond and nanosecond
inputs is dropped by floor division (toward negative infinity), which
coincides with truncation only for values that are non-negative. -/
theorem c1_unix_ms_scaling (f : Format) (v : Int) (i : Instant)
    (h : decodeTs f v = some i) :
    (Times.new i).unix_ms = specMillisOf f v := by
  cases f with
  | seconds =>
    simp only [decodeTs, from_timestamp] at h
    split at h
    · cases h
      simp only [Times.new, Instant.timestamp_millis, specMillisOf]
      omega
    · cases h
  | milliseconds =>
    simp only [decodeTs, from_timestamp_millis, from_timestamp] at h
    split at h
    · cases h
      simp only [Times.new, Instant.timestamp_millis, specMillisOf]
      omega
    · cases h
  | microseconds =>
    simp only [decodeTs, from_timestamp_micros, from_timestamp] at h
    split at h
    · cases h
      simp only [Times.new, Instant.timestamp_millis, specMillisOf]
      rw [Int.fdiv_eq_ediv _ (by norm_num)]
      omega
    · cases h
  | nanoseconds =>
    simp only [decodeTs, from_timestamp_nanos, from_timestamp] at h
    split at h
    · cases h
      simp only [Times.new, Instant.timestamp_millis, specMillisOf]
      rw [Int.fdiv_eq_ediv _ (by norm_num)]
      omega
    · cases h

/-- Claim C1, counterexample to the claim as stated: the microsecond
input `-1` decodes to the instant one microsecond before the epoch, whose
`unix_ms` is `-1` (floor), whereas truncating the sub-millisecond part of
`-1` microseconds toward zero gives `0`. -/
theorem c1_counterexample :
    decodeTs Format.microseconds (-1) = some ⟨-1, 999999000⟩ ∧
    (Times.new ⟨-1, 999999000⟩).unix_ms = -1 ∧
    Int.tdiv (-1) 1000 = 0 ∧ ((-1 : Int) = 0 → False) := by decide

/-- Claim C1, witness: the scaling law evaluated at the valid second
input `5`, whose `unix_ms` is `5000`. -/
theorem c1_witness :
    decodeTs Format.seconds 5 = some ⟨5, 0⟩ ∧
    (Times.new ⟨5, 0⟩).unix_ms = specMillisOf Format.seconds 5 :=
  ⟨by decide, c1_unix_ms_scaling Format.seconds 5 ⟨5, 0⟩ (by decide)⟩

/-- Claim C2: a syntactically valid integer token whose value is outside
the representable range for the selected unit makes the run abort with
the fatal message of the `.expect`; only the records of the preceding
values are printed, the remaining tokens are not processed, and the `now`
report is suppressed. -/
theorem c2_out_of_range_fatal (f : Format) (b : Bool) (ni : Instant)
    (toks1 toks2 : List String) (tok : String) (v : Int)
    (hparse : parseToken tok = some v)
    (hfail : decodeTs f v = none)
    (hok : ∀ w ∈ toks1.filterMap parseToken, (decodeTs f w).isSome) :
    runMain ⟨some (toks1 ++ tok :: toks2), f, b⟩ ni =
      (entriesOf f toks1, some "input should be a valid time") := by
  have hsplit : (toks1 ++ tok :: toks2).filterMap parseToken =
      toks1.filterMap parseToken ++ v :: toks2.filterMap parseToken := by
    rw [List.filterMap_append, List.filterMap_cons, hparse]
  have habort := processValues_abort f v (toks2.filterMap parseToken) hfail
      (toks1.filterMap parseToken) hok
  simp only [runMain, hsplit, habort]
  rfl

/-- Claim C2, witness: with unit seconds, the token list
`0,9223372036854775807,1` prints the record for `0` and aborts at the
out-of-range value; `1` is not processed. -/
theorem c2_witness :
    parseToken "9223372036854775807" = some 9223372036854775807 ∧
    decodeTs Format.seconds 9223372036854775807 = none ∧
    runMain ⟨some (["0"] ++ "9223372036854775807" :: ["1"]), Format.seconds, true⟩ ⟨0, 0⟩ =
      (entriesOf Format.seconds ["0"], some "input should be a valid time") :=
  ⟨by decide, by decide,
    c2_out_of_range_fatal Format.seconds true ⟨0, 0⟩ ["0"] ["1"]
      "9223372036854775807" 9223372036854775807 (by decide) (by decide) (by decide)⟩

/-- Claim C3: for every value in the i64 range, including its extremes,
decoding under the nanoseconds unit succeeds: the instant always lies in
chrono's representable date range, so there is no failure path. -/
theorem c3_nanoseconds_total (v : Int)
    (h1 : -9223372036854775808 ≤ v) (h2 : v ≤ 9223372036854775807) :
    (decodeTs Format.nanoseconds v).isSome = true := by
  have hmin : MIN_DAYS = -95746495 := by decide
  have hmax : MAX_DAYS = 95745764 := by decide
  simp only [decodeTs, from_timestamp_nanos, from_timestamp, UNIX_EPOCH_DAY, hmin, hmax]
  rw [if_pos]
  · rfl
  · refine ⟨by omega, by omega, by omega, by omega⟩

/-- Claim C3, witness: decoding `i64::MAX` nanoseconds succeeds. -/
theorem c3_witness :
    (decodeTs Format.nanoseconds 9223372036854775807).isSome = true :=
  c3_nanoseconds_total 9223372036854775807 (by decide) (by decide)

/-- Claim C4, counterexample to the claim as stated: the token `" 5"`
(a valid integer surrounded by whitespace) is NOT accepted: its trimmed
form is nonempty and `"5"` alone would parse, but the program parses the
untrimmed token, which fails, so the token is reported as invalid and
produces no output record. -/
theorem c4_counterexample :
    (rustTrim " 5").isEmpty = false ∧ parse_i64 "5" = some 5 ∧
    parseToken " 5" = none ∧ tokenDiagnostics [" 5"] = [errMsg " 5"] ∧
    runMain ⟨some [" 5"], Format.seconds, false⟩ ⟨0, 0⟩ = ([], none) := by decide

/-- Claim C4 (amended): the token is trimmed only for the emptiness test;
validation parses the untrimmed text, so every token that contains a
whitespace character and is not whitespace-only fails to parse and is
reported as invalid and skipped. -/
theorem c4_whitespace_rejected (val : String) (c : Char)
    (hc : c ∈ val.data) (hw : rustIsWhitespace c = true)
    (hne : (rustTrim val).isEmpty = false) :
    parseToken val = none ∧ tokenDiagnostics [val] = [errMsg val] := by
  have hnone : parse_i64 val = none := parse_i64_eq_none_of_whitespace hc hw
  constructor
  · simp [parseToken, hne, hnone]
  · simp [tokenDiagnostics, hne, hnone]

/-- Claim C4, witness: the amended statement evaluated at the token
`" 5"` and its leading space. -/
theorem c4_witness :
    parseToken " 5" = none ∧ tokenDiagnostics [" 5"] = [errMsg " 5"] :=
  c4_whitespace_rejected " 5" ' ' (by decide) (by decide) (by decide)

/-- Claim C5: a non-empty token that fails to parse as i64 yields a
diagnostic naming that token, produces no record, and does not stop the
batch: the output equals that of the token list with the bad token
removed, every remaining valid token is decoded and printed in input
order, and when no decoded value is out of range the run does not abort
(exit status 0). -/
theorem c5_bad_token_skipped (f : Format) (b : Bool) (ni : Instant)
    (toks1 toks2 : List String) (bad : String)
    (h1 : (rustTrim bad).isEmpty = false)
    (h2 : parse_i64 bad = none)
    (hok : ∀ w ∈ (toks1 ++ toks2).filterMap parseToken, (decodeTs f w).isSome) :
    runMain ⟨some (toks1 ++ bad :: toks2), f, b⟩ ni =
      (entriesOf f toks1 ++ entriesOf f toks2 ++
        (if b then [Entry.now (Times.new ni)] else []), none) ∧
    tokenDiagnostics (toks1 ++ bad :: toks2) =
      tokenDiagnostics toks1 ++ errMsg bad :: tokenDiagnostics toks2 := by
  have hbad : parseToken bad = none := by
    rw [parseToken_eq_parse_of_trim_nonempty h1, h2]
  have hsplit : (toks1 ++ bad :: toks2).filterMap parseToken =
      (toks1 ++ toks2).filterMap parseToken := by
    rw [List.filterMap_append, List.filterMap_cons, hbad, List.filterMap_append]
  have hall := processValues_all_some f ((toks1 ++ toks2).filterMap parseToken) hok
  constructor
  · simp only [runMain, hsplit, hall]
    rcases b with _ | _
    · simp [entriesOf]
    · simp [entriesOf]
  · simp only [tokenDiagnostics, List.filterMap_append, List.filterMap_cons, h1, h2]
    simp

/-- Claim C5, witness: in the batch `1,abc,2` the token `abc` yields a
diagnostic and no record, while `1` and `2` are both printed in order and
the run does not abort. -/
theorem c5_witness :
    runMain ⟨some (["1"] ++ "abc" :: ["2"]), Format.seconds, false⟩ ⟨0, 0⟩ =
      (entriesOf Format.seconds ["1"] ++ entriesOf Format.seconds ["2"] ++
        (if false then [Entry.now (Times.new ⟨0, 0⟩)] else []), none) ∧
    tokenDiagnostics (["1"] ++ "abc" :: ["2"]) =
      tokenDiagnostics ["1"] ++ errMsg "abc" :: tokenDiagnostics ["2"] :=
  c5_bad_token_skipped Format.seconds false ⟨0, 0⟩ ["1"] ["2"] "abc"
    (by decide) (by decide) (by decide)

/-- Claim C6: a token whose trimmed form is empty is discarded silently:
the run behaves exactly as if the token were absent, and no diagnostic is
emitted for it. -/
theorem c6_empty_token_dropped (f : Format) (b : Bool) (ni : Instant)
    (toks1 toks2 : List String) (ws : String)
    (h : (rustTrim ws).isEmpty = true) :
    runMain ⟨some (toks1 ++ ws :: toks2), f, b⟩ ni =
      runMain ⟨some (toks1 ++ toks2), f, b⟩ ni ∧
    tokenDiagnostics (toks1 ++ ws :: toks2) = tokenDiagnostics (toks1 ++ toks2) := by
  have hws : parseToken ws = none := parseToken_eq_none_of_trim_empty h
  have hsplit : (toks1 ++ ws :: toks2).filterMap parseToken =
      (toks1 ++ toks2).filterMap parseToken := by
    rw [List.filterMap_append, List.filterMap_cons, hws, List.filterMap_append]
  constructor
  · simp only [runMain, hsplit]
  · simp only [tokenDiagnostics, List.filterMap_append, List.filterMap_cons, h]
    simp

/-- Claim C6, witness: a whitespace-only token between `1` and `2`
changes neither the output nor the diagnostics. -/
theorem c6_witness :
    runMain ⟨some (["1"] ++ "  " :: ["2"]), Format.seconds, true⟩ ⟨0, 0⟩ =
      runMain ⟨some (["1"] ++ ["2"]), Format.seconds, true⟩ ⟨0, 0⟩ ∧
    tokenDiagnostics (["1"] ++ "  " :: ["2"]) = tokenDiagnostics (["1"] ++ ["2"]) :=
  c6_empty_token_dropped Format.seconds true ⟨0, 0⟩ ["1"] ["2"] "  " (by decide)

/-- Claim C7: the token `0` under unit seconds prints exactly one record,
prefixed `(0 s)`, whose UTC view is the Unix epoch instant and whose
`unix_s` and `unix_ms` fields are both `0`. -/
theorem c7_zero_seconds :
    (∀ ni : Instant, runMain ⟨some ["0"], Format.seconds, false⟩ ni =
      ([Entry.batch "(0 s)" (Times.new unixEpoch)], none)) ∧
    (Times.new unixEpoch).utc = unixEpoch ∧
    (Times.new unixEpoch).unix_s = 0 ∧ (Times.new unixEpoch).unix_ms = 0 :=
  ⟨fun _ => rfl, rfl, rfl, rfl⟩

/-- Claim C8: with no timestamp argument and the `now` flag unset, the
program prints no time report and does not abort (exit status 0). -/
theorem c8_no_args_no_output (f : Format) (ni : Instant) :
    runMain ⟨none, f, false⟩ ni = ([], none) := rfl

/-- Claim C9, counterexample to the claim as stated: the raw token
`0005` is printed with the prefix `(5 s)` — the decimal rendering of the
parsed value — and not with the prefix `(0005 s)` built from the raw
token as it appeared in the input. -/
theorem c9_counterexample :
    runMain ⟨some ["0005"], Format.seconds, false⟩ ⟨0, 0⟩ =
      ([Entry.batch "(5 s)" (Times.new ⟨5, 0⟩)], none) ∧
    ("(5 s)" = "(0005 s)" → False) := by decide

/-- Claim C9 (amended): the printed records are exactly the batch
records of the parsed tokens — in input order, one per parsed value up
to the first out-of-range abort, each prefixed by the decimal rendering
of that token's parsed i64 value together with the selected unit's
symbol (which matches the raw token only when the token is in canonical
decimal form) — followed by the `now` record exactly when the run did
not abort and the `now` flag is set. -/
theorem c9_output_shape (cli : Cli) (ni : Instant) :
    (runMain cli ni).1 =
      (match cli.timestamp with
       | none => ([] : List Entry)
       | some toks => batchRecordsOf cli.format toks) ++
      (if (runMain cli ni).2 = none ∧ cli.now = true then [Entry.now (Times.new ni)]
       else []) := by
  rcases cli with ⟨ts, f, b⟩
  rcases ts with _ | toks
  · rcases b with _ | _ <;> simp [runMain]
  · rcases hpr : processValues f (toks.filterMap parseToken) with ⟨es, err⟩
    have h1 : batchRecordsOf f toks = es := by
      have h2 := processValues_eq_batchRecords f (toks.filterMap parseToken)
      rw [hpr] at h2
      exact h2.symm
    rcases err with _ | msg
    · rcases b with _ | _ <;> simp [runMain, hpr, h1]
    · rcases b with _ | _ <;> simp [runMain, hpr, h1]

/-- Claim C10: `Times::new dt` keeps the instant unchanged in its `utc`
(and `local`) field, and its epoch fields are consistent: `unix_s` is
`unix_ms` divided by 1000 rounding toward negative infinity, for negative
as well as non-negative instants. The hypotheses are chrono's sub-second
invariant (`0 ≤ nsecs < 10^9`), which holds for every instant this
program constructs. -/
theorem c10_times_invariants (dt : Instant)
    (h1 : 0 ≤ dt.nsecs) (h2 : dt.nsecs < 1000000000) :
    (Times.new dt).utc = dt ∧ (Times.new dt).«local» = dt ∧
    (Times.new dt).unix_s = Int.fdiv (Times.new dt).unix_ms 1000 := by
  refine ⟨rfl, rfl, ?_⟩
  simp only [Times.new, Instant.timestamp, Instant.timestamp_millis]
  rw [Int.fdiv_eq_ediv _ (by norm_num)]
  omega

/-- Claim C10, witness: the invariants evaluated at the negative instant
one microsecond before the epoch (`unix_ms = -1`, `unix_s = -1`). -/
theorem c10_witness :
    (0 : Int) ≤ (Instant.mk (-1) 999999000).nsecs ∧
    (Instant.mk (-1) 999999000).nsecs < 1000000000 ∧
    ((Times.new ⟨-1, 999999000⟩).utc = ⟨-1, 999999000⟩ ∧
      (Times.new ⟨-1, 999999000⟩).«local» = ⟨-1, 999999000⟩ ∧
      (Times.new ⟨-1, 999999000⟩).unix_s =
        Int.fdiv (Times.new ⟨-1, 999999000⟩).unix_ms 1000) :=
  ⟨by decide, by decide, c10_times_invariants ⟨-1, 999999000⟩ (by decide) (by decide)⟩

end Tme
